import Mathlib

/-!
Verification of the hot-takes consistency and reconciliation engine.

Shallow embedding of the data model and operations:
boards/cards with dense ranks, snapshots, cloud merge policy,
rate limiting and the friendship state machine, translated from the
TypeScript sources (`rateLimiting.ts`, `firestoreFriendships.ts`,
seed/test files).  Components whose implementation files are not part
of the source tree (the board merge functions, `sortUserIds`, the rank
manager and the snapshot capture engine) are modelled from the
specification, as marked in their doc comments.
-/

/-! ## Cloud reconciliation (merge policy) -/

/-- Local board record, from the `Board` type used throughout the source:
`id`, `name`, `coverImage` (nullable), `createdAt`, `updatedAt`,
`deletedAt` (nullable). -/
structure Board where
  id : String
  name : String
  coverImage : Option String
  createdAt : Int
  updatedAt : Int
  deletedAt : Option Int
deriving Repr, DecidableEq

/-- Modelled from the spec: `mergeEntity`/`mergeBoards` of the cloud
reconciliation component (its implementation file `firestoreBoards.ts` is
not in the source tree; only its tests are).  Local absent returns remote,
remote absent returns local, both present returns local unconditionally. -/
def mergeBoards (localBoard cloudBoard : Option Board) : Option Board :=
  match localBoard, cloudBoard with
  | some l, _ => some l
  | none, c => c

/-- Modelled from the spec: `mergeList`/`mergeBoardLists` — take the union
of the id sets of the two lists and apply `mergeBoards` per id, the entity at an
id being absent when that side has no board with that id. -/
def mergeBoardLists (localBoards cloudBoards : List Board) : List Board :=
  ((localBoards.map (·.id)) ++ (cloudBoards.map (·.id))).dedup.filterMap
    (fun i =>
      mergeBoards (localBoards.find? (fun b => b.id = i))
        (cloudBoards.find? (fun b => b.id = i)))

/-! ## Rate limiting (`src/lib/rateLimiting.ts`) -/

/-- One day in milliseconds, from `ONE_DAY_MS = 24 * 60 * 60 * 1000`. -/
def ONE_DAY_MS : Int := 24 * 60 * 60 * 1000

/-- Per-action rate-limit configuration, from the object literals in
`RATE_LIMITS`. -/
structure RateLimitConfig where
  count : Int
  windowMs : Int
deriving Repr, DecidableEq

/-- The three configured limits, from `RATE_LIMITS` in `rateLimiting.ts`. -/
structure RateLimitTable where
  friendRequests : RateLimitConfig
  reports : RateLimitConfig
  boards : RateLimitConfig
deriving Repr, DecidableEq

/-- `RATE_LIMITS`: friend requests 20/day, reports 10/day, boards 50/day. -/
def RATE_LIMITS : RateLimitTable :=
  { friendRequests := ⟨20, ONE_DAY_MS⟩
    reports := ⟨10, ONE_DAY_MS⟩
    boards := ⟨50, ONE_DAY_MS⟩ }

/-- Result of a rate-limit check, from `RateLimitResult`
(`allowed`, `remaining`, optional `error`). -/
structure RateLimitResult where
  allowed : Bool
  remaining : Int
  error : Option String
deriving Repr, DecidableEq

/-- A document in a remote collection as seen by the rate limiter: the
value of its owner field (`requestedBy` / `reporterId` / `ownerId`) and its
`createdAt` timestamp in milliseconds. -/
structure OwnedDoc where
  owner : String
  createdAt : Int
deriving Repr, DecidableEq

/-- The remote store as seen by `rateLimiting.ts`: the three backing
collections, plus a flag saying whether the Firestore query
(`getDocs`) throws.  The flag models the `catch` path of
`countDocumentsSince`. -/
structure RemoteStore where
  friendshipDocs : List OwnedDoc
  reportDocs : List OwnedDoc
  boardDocs : List OwnedDoc
  queryFails : Bool
deriving Repr, DecidableEq

/-- `countDocumentsSince`: count documents whose owner field equals
`userId` and whose `createdAt >= sinceMs`; on a query error it logs and
returns 0 ("Default to allowing on error"). -/
def countDocumentsSince (docs : List OwnedDoc) (userId : String)
    (sinceMs : Int) (fails : Bool) : Nat :=
  if fails then 0
  else (docs.filter (fun d => d.owner = userId && sinceMs ≤ d.createdAt)).length

/-- Shared body of the three `check*Limit` functions: null user denies
with "Not signed in"; otherwise `remaining = max(0, count - currentCount)`,
`allowed = remaining > 0`, and on denial the message names the ceiling. -/
def checkLimit (cfg : RateLimitConfig) (docs : List OwnedDoc)
    (noun : String) (verb : String) (fails : Bool) (now : Int)
    (userId : Option String) : RateLimitResult :=
  match userId with
  | none => ⟨false, 0, some "Not signed in"⟩
  | some uid =>
    let sinceMs := now - cfg.windowMs
    let currentCount : Int := countDocumentsSince docs uid sinceMs fails
    let remaining := max 0 (cfg.count - currentCount)
    let allowed := decide (0 < remaining)
    ⟨allowed, remaining,
      if allowed then none
      else some ("You can only " ++ verb ++ " " ++ toString cfg.count ++ " "
        ++ noun ++ " per day. Please try again later.")⟩

/-- `checkFriendRequestLimit` over the `friendships` collection keyed by
`requestedBy`. -/
def checkFriendRequestLimit (store : RemoteStore) (now : Int)
    (userId : Option String) : RateLimitResult :=
  checkLimit RATE_LIMITS.friendRequests store.friendshipDocs
    "friend requests" "send" store.queryFails now userId

/-- `checkReportLimit` over the `reports` collection keyed by
`reporterId`. -/
def checkReportLimit (store : RemoteStore) (now : Int)
    (userId : Option String) : RateLimitResult :=
  checkLimit RATE_LIMITS.reports store.reportDocs
    "reports" "submit" store.queryFails now userId

/-- `checkBoardCreationLimit` over the `boards` collection keyed by
`ownerId`. -/
def checkBoardCreationLimit (store : RemoteStore) (now : Int)
    (userId : Option String) : RateLimitResult :=
  checkLimit RATE_LIMITS.boards store.boardDocs
    "boards" "create" store.queryFails now userId

/-- The number of reports by a user in the trailing 24-hour window ending
at `now`, as counted by the Firestore query in `checkReportLimit`. -/
def reportsInWindow (store : RemoteStore) (now : Int) (uid : String) : Nat :=
  (store.reportDocs.filter
    (fun d => d.owner = uid && now - ONE_DAY_MS ≤ d.createdAt)).length

/-! ## Friendships (`src/lib/firestoreFriendships.ts`) -/

/-- Friendship status, from the `Friendship` data model
(pending or active). -/
inductive FriendStatus where
  | pending
  | active
deriving Repr, DecidableEq

/-- A friendship document stored at `/friendships/{friendshipId}`. -/
structure Friendship where
  id : String
  users : List String
  status : FriendStatus
  requestedBy : String
  createdAt : Int
  acceptedAt : Option Int
deriving Repr, DecidableEq

/-- The friendships collection: a keyed mapping from document id to
document, `none` meaning the document does not exist. -/
def FriendDB : Type := String → Option Friendship

/-- `setDoc`: write a document at an id (creating or overwriting). -/
def setDoc (db : FriendDB) (docId : String) (v : Friendship) : FriendDB :=
  fun k => if k = docId then some v else db k

/-- `deleteDoc`: remove the document at an id; deleting a missing
document succeeds and is a no-op, as in Firestore. -/
def deleteDoc (db : FriendDB) (docId : String) : FriendDB :=
  fun k => if k = docId then none else db k

/-- The empty friendships collection. -/
def emptyDB : FriendDB := fun _ => none

/-- Result type of the friendship operations, from `FriendshipResult`
(`success`, optional `friendshipId`, optional `error`). -/
structure FriendshipResult where
  success : Bool
  friendshipId : Option String
  error : Option String
deriving Repr, DecidableEq

/-- Modelled from the spec: `sortUserIds` (its defining module
`socialTypes.ts` is not in the source tree) — the lexicographically
sorted pair of the two user ids.  The comparison is the lexicographic
order on the character lists underlying the strings, which is the order
on `String` itself. -/
def sortUserIds (uid1 uid2 : String) : String × String :=
  if uid1.data ≤ uid2.data then (uid1, uid2) else (uid2, uid1)

/-- `generateFriendshipId`: the sorted pair joined by `"_"`. -/
def generateFriendshipId (uid1 uid2 : String) : String :=
  (sortUserIds uid1 uid2).1 ++ "_" ++ (sortUserIds uid1 uid2).2

/-- `createFriendRequest(fromUid, toUid)`: reject self-requests, reject
when the document of the pair is already `active` or `pending`, otherwise
create the pending document at the deterministic id.  Returns the result
together with the updated collection. -/
def createFriendRequest (fromUid toUid : String) (db : FriendDB)
    (now : Int) : FriendshipResult × FriendDB :=
  if fromUid = toUid then
    (⟨false, none, some "You can\x27t send a friend request to yourself"⟩, db)
  else
    let friendshipId := generateFriendshipId fromUid toUid
    match db friendshipId with
    | some existing =>
      match existing.status with
      | .active =>
        (⟨false, none, some "You are already friends with this user"⟩, db)
      | .pending =>
        (⟨false, none, some "A friend request is already pending"⟩, db)
    | none =>
      let sorted := sortUserIds fromUid toUid
      (⟨true, some friendshipId, none⟩,
        setDoc db friendshipId
          ⟨friendshipId, [sorted.1, sorted.2], .pending, fromUid, now, none⟩)

/-- `acceptFriendRequest(friendshipId, acceptingUid)`: not-found on a
missing document, permission errors on self-accept or a non-member,
otherwise set status to active and `acceptedAt = now`. -/
def acceptFriendRequest (friendshipId acceptingUid : String)
    (db : FriendDB) (now : Int) : FriendshipResult × FriendDB :=
  match db friendshipId with
  | none => (⟨false, none, some "Friend request not found"⟩, db)
  | some friendship =>
    if friendship.requestedBy = acceptingUid then
      (⟨false, none, some "You can\x27t accept your own friend request"⟩, db)
    else if acceptingUid ∈ friendship.users then
      (⟨true, some friendshipId, none⟩,
        setDoc db friendshipId
          { friendship with status := .active, acceptedAt := some now })
    else
      (⟨false, none, some "You are not part of this friend request"⟩, db)

/-- `declineFriendRequest(friendshipId, decliningUid)`: not-found on a
missing document, permission error on a non-member, otherwise delete the
document. -/
def declineFriendRequest (friendshipId decliningUid : String)
    (db : FriendDB) : FriendshipResult × FriendDB :=
  match db friendshipId with
  | none => (⟨false, none, some "Friend request not found"⟩, db)
  | some friendship =>
    if decliningUid ∈ friendship.users then
      (⟨true, some friendshipId, none⟩, deleteDoc db friendshipId)
    else
      (⟨false, none, some "You are not part of this friend request"⟩, db)

/-- `unfriend(uid, friendUid)`: delete the document of the pair outright
(no existence check — `deleteDoc` on a missing document succeeds) and
report success. -/
def unfriend (uid friendUid : String) (db : FriendDB) :
    FriendshipResult × FriendDB :=
  let friendshipId := generateFriendshipId uid friendUid
  (⟨true, some friendshipId, none⟩, deleteDoc db friendshipId)

/-! ## Rank manager

Modelled from the spec: the rank manager (`append` / `reorder` /
`softDelete` over the cards of a board, implemented in the local storage and
`useCards` modules) is not in the source tree; only its callers and seed
data are.  The store of a board is modelled as an unordered row set together
with the id counter used to mint fresh card ids. -/

/-- A card row of one board: `id`, `name`, `thumbnailKey`, `rank`
(positive integer) and `deletedAt` (nullable soft-delete marker). -/
structure Card where
  id : Nat
  name : String
  thumbnailKey : Option String
  rank : Nat
  deletedAt : Option Int
deriving Repr, DecidableEq

/-- The card rows of one board plus the counter minting fresh ids. -/
structure BoardState where
  nextId : Nat
  cards : List Card
deriving Repr, DecidableEq

/-- A card participates in the active ranking iff `deletedAt == null`. -/
def isActive (c : Card) : Bool := c.deletedAt.isNone

/-- The non-deleted cards of the board. -/
def activeCards (s : BoardState) : List Card := s.cards.filter isActive

/-- The soft-deleted cards of the board. -/
def inactiveCards (s : BoardState) : List Card :=
  s.cards.filter (fun c => !(isActive c))

/-- `currentMax(boardId)`: the maximum rank among the given cards,
0 when there are none. -/
def maxRank (cs : List Card) : Nat := (cs.map (·.rank)).foldr max 0

/-- Modelled from the spec: `append(card)` — create a fresh card with
`rank = currentMax(boardId) + 1` over the non-deleted cards. -/
def appendCard (nm : String) (thumb : Option String) (s : BoardState) :
    BoardState :=
  { nextId := s.nextId + 1
    cards := s.cards ++ [⟨s.nextId, nm, thumb, maxRank (activeCards s) + 1, none⟩] }

/-- The non-deleted card list ordered by current rank ascending. -/
def sortByRank (cs : List Card) : List Card :=
  cs.insertionSort (fun a b => a.rank ≤ b.rank)

/-- Re-derive ranks from list order: the card at position `k` (0-based)
receives rank `n + k`. -/
def renumberFrom : Nat → List Card → List Card
  | _, [] => []
  | n, c :: cs => { c with rank := n } :: renumberFrom (n + 1) cs

/-- Modelled from the spec: `reorder(boardId, cardId, fromIndex, toIndex)`
— over the rank-ordered non-deleted list, fail (returning the state
unchanged) unless both indices are in range and the card at `fromIndex`
has id `cardId`; otherwise remove the card at `fromIndex`, reinsert at
`toIndex`, and rewrite ranks `1..N` from the new order. -/
def reorderCards (cardId fromIdx toIdx : Nat) (s : BoardState) : BoardState :=
  let act := sortByRank (activeCards s)
  match act[fromIdx]? with
  | none => s
  | some c =>
    if c.id = cardId ∧ toIdx < act.length then
      { s with cards :=
          inactiveCards s ++ renumberFrom 1 ((act.eraseIdx fromIdx).insertIdx toIdx c) }
    else s

/-- Modelled from the spec: `softDelete(cardId)` — set `deletedAt` on the
matching non-deleted card and decrement the rank of every surviving card
whose rank exceeds the prior rank of the deleted card. -/
def softDeleteCard (cardId : Nat) (now : Int) (s : BoardState) : BoardState :=
  match (activeCards s).find? (fun c => c.id = cardId) with
  | none => s
  | some c =>
    { s with cards := s.cards.map (fun x =>
        if x.id = cardId then { x with deletedAt := some now }
        else if isActive x ∧ c.rank < x.rank then { x with rank := x.rank - 1 }
        else x) }

/-- One rank-manager operation. -/
inductive RankOp where
  | append (nm : String) (thumb : Option String)
  | reorder (cardId fromIdx toIdx : Nat)
  | softDelete (cardId : Nat) (now : Int)
deriving Repr, DecidableEq

/-- Apply one rank-manager operation. -/
def applyRankOp : RankOp → BoardState → BoardState
  | .append nm thumb, s => appendCard nm thumb s
  | .reorder cid i j, s => reorderCards cid i j s
  | .softDelete cid now, s => softDeleteCard cid now s

/-- Apply a sequence of rank-manager operations, first one first. -/
def applyRankOps (ops : List RankOp) (s : BoardState) : BoardState :=
  ops.foldl (fun s op => applyRankOp op s) s

/-- The dense-rank invariant: the ranks of the non-deleted cards are a
permutation of `{1..N}` where `N` is the number of non-deleted cards. -/
def rankDense (s : BoardState) : Prop :=
  ((activeCards s).map (·.rank)).Perm (List.range' 1 (activeCards s).length)

/-- Full board well-formedness: dense ranks, no duplicate card ids, and
every stored id below the fresh-id counter. -/
def boardInv (s : BoardState) : Prop :=
  rankDense s ∧ (s.cards.map (·.id)).Nodup ∧ ∀ c ∈ s.cards, c.id < s.nextId

instance (s : BoardState) : Decidable (rankDense s) := by
  unfold rankDense; infer_instance

instance (s : BoardState) : Decidable (boardInv s) := by
  unfold boardInv; infer_instance

/-- A board with no cards. -/
def emptyBoard : BoardState := ⟨0, []⟩

/-! ## Snapshot engine

Modelled from the spec: the snapshot engine (`capture` / `list` /
`remove`) is not in the source tree; the seed loader
`loadSinglesInfernoS5Snapshots` shows the same by-value entry
construction. -/

/-- A value-copied record of the state of one card at snapshot time. -/
structure RankingEntry where
  cardId : Nat
  cardName : String
  rank : Nat
  thumbnailKey : Option String
deriving Repr, DecidableEq

/-- An immutable, episode-numbered capture of a board ranking. -/
structure Snapshot where
  id : String
  episodeNumber : Nat
  label : String
  rankings : List RankingEntry
  createdAt : Int
deriving Repr, DecidableEq

/-- A board together with its snapshot history. -/
structure AppState where
  board : BoardState
  snapshots : List Snapshot
deriving Repr, DecidableEq

/-- The value-copied ranking entries of the current non-deleted
cards sorted by rank: copy `id → cardId`, `name → cardName`, `rank`,
`thumbnailKey`. -/
def captureEntries (b : BoardState) : List RankingEntry :=
  (sortByRank (activeCards b)).map
    (fun c => ⟨c.id, c.name, c.rank, c.thumbnailKey⟩)

/-- The largest existing episode number, 0 when there is none. -/
def maxEpisode (sns : List Snapshot) : Nat :=
  (sns.map (·.episodeNumber)).foldr max 0

/-- Modelled from the spec: `capture(boardId, label, notes)` — build the
value-copied entries, assign `episodeNumber = max(existing) + 1`, persist
the new snapshot. -/
def capture (sid label : String) (now : Int) (st : AppState) : AppState :=
  { st with snapshots := st.snapshots ++
      [⟨sid, maxEpisode st.snapshots + 1, label, captureEntries st.board, now⟩] }

/-- Rename a card: the later card edit the specification uses as its
example. -/
def renameCard (cardId : Nat) (newName : String) (b : BoardState) :
    BoardState :=
  { b with cards :=
      b.cards.map fun c =>
        if c.id = cardId then { c with name := newName } else c }

/-- A later card-level change: renaming, or any rank-manager operation
(append / reorder / soft delete). -/
inductive CardEdit where
  | rename (cardId : Nat) (newName : String)
  | rankOp (op : RankOp)
deriving Repr, DecidableEq

/-- Apply one card-level change to the application state. -/
def applyCardEdit : CardEdit → AppState → AppState
  | .rename cid nm, st => { st with board := renameCard cid nm st.board }
  | .rankOp op, st => { st with board := applyRankOp op st.board }

/-- Apply a sequence of card-level changes, first one first. -/
def applyCardEdits (es : List CardEdit) (st : AppState) : AppState :=
  es.foldl (fun st e => applyCardEdit e st) st

/-! ## Theorems -/

/-- C1: `mergeBoards` returns the remote copy when the local copy is
absent, the local copy when the remote copy is absent, and the local copy
unconditionally when both are present — for every pair of boards, hence
regardless of the `updatedAt` of either copy. -/
theorem mergeBoards_local_wins (l r : Board) :
    mergeBoards (some l) none = some l ∧
    mergeBoards none (some r) = some r ∧
    mergeBoards (some l) (some r) = some l :=
  ⟨rfl, rfl, rfl⟩

/-- C6: `generateFriendshipId` is symmetric: for all user ids `a` and
`b`, `generateFriendshipId a b = generateFriendshipId b a` — the id is the
lexicographically sorted pair joined by `"_"`. -/
theorem generateFriendshipId_symm (a b : String) :
    generateFriendshipId a b = generateFriendshipId b a := by
  unfold generateFriendshipId sortUserIds
  by_cases hab : a.data ≤ b.data <;> by_cases hba : b.data ≤ a.data
  · have : a = b := by
      cases a; cases b
      exact congrArg String.mk (le_antisymm hab hba)
    subst this; rfl
  · simp [hab, hba]
  · simp [hab, hba]
  · rcases le_total a.data b.data with h | h
    · exact absurd h hab
    · exact absurd h hba

/-- C5: for every non-null user, when the backing query succeeds
`checkReportLimit` allows whenever the report count of the user in the
trailing 24-hour window is at most 9 and denies whenever it is 10 or
more, with `remaining = max(0, 10 - currentCount)`,
`allowed = remaining > 0`, and a denial message naming the ceiling 10. -/
theorem checkReportLimit_spec (store : RemoteStore) (now : Int)
    (uid : String) (hOk : store.queryFails = false) :
    (reportsInWindow store now uid ≤ 9 →
      (checkReportLimit store now (some uid)).allowed = true) ∧
    (10 ≤ reportsInWindow store now uid →
      (checkReportLimit store now (some uid)).allowed = false) ∧
    (checkReportLimit store now (some uid)).remaining
      = max 0 (10 - (reportsInWindow store now uid : Int)) ∧
    (checkReportLimit store now (some uid)).allowed
      = decide (0 < (checkReportLimit store now (some uid)).remaining) ∧
    ((checkReportLimit store now (some uid)).allowed = false →
      (checkReportLimit store now (some uid)).error
        = some "You can only submit 10 reports per day. Please try again later.") := by
  have hcnt : countDocumentsSince store.reportDocs uid
      (now - ONE_DAY_MS) store.queryFails
      = reportsInWindow store now uid := by
    rw [hOk]
    simp only [countDocumentsSince, reportsInWindow]
    norm_num
  simp only [checkReportLimit, checkLimit, RATE_LIMITS, hcnt]
  refine ⟨fun h => ?_, fun h => ?_, trivial, trivial, fun h => ?_⟩
  · exact decide_eq_true (by omega)
  · exact decide_eq_false (by omega)
  · rw [if_neg (by simp_all)]
    rfl

/-- Witness for C5: with 9 prior reports in the window the 10th is
allowed; with 10 prior reports the 11th is denied. -/
theorem checkReportLimit_spec_witness :
    (checkReportLimit ⟨[], List.replicate 9 ⟨"u1", 0⟩, [], false⟩ 0
      (some "u1")).allowed = true ∧
    (checkReportLimit ⟨[], List.replicate 10 ⟨"u1", 0⟩, [], false⟩ 0
      (some "u1")).allowed = false :=
  ⟨(checkReportLimit_spec ⟨[], List.replicate 9 ⟨"u1", 0⟩, [], false⟩ 0 "u1"
      rfl).1 (by decide),
   (checkReportLimit_spec ⟨[], List.replicate 10 ⟨"u1", 0⟩, [], false⟩ 0 "u1"
      rfl).2.1 (by decide)⟩

/-- C9 counterexample: when the backing query fails, `checkReportLimit`
returns a normal success result (`allowed = true`, full `remaining`, no
error), not a transient-error result, refuting the claim at this input. -/
theorem rateLimit_failure_counterexample :
    (checkReportLimit ⟨[], [], [], true⟩ 0 (some "u1")).allowed = true ∧
    (checkReportLimit ⟨[], [], [], true⟩ 0 (some "u1")).remaining = 10 ∧
    (checkReportLimit ⟨[], [], [], true⟩ 0 (some "u1")).error = none := by
  decide

/-- C9 amended: when the backing store query fails, none of the three
rate-limit checks propagates the fault (they are total and catch the
error inside `countDocumentsSince`, defaulting the count to 0), and each
returns a normal allowed result with the full configured remaining and no
error — fail-open, not a transient-error result. -/
theorem rateLimit_failOpen (store : RemoteStore) (now : Int) (uid : String)
    (hFail : store.queryFails = true) :
    checkFriendRequestLimit store now (some uid) = ⟨true, 20, none⟩ ∧
    checkReportLimit store now (some uid) = ⟨true, 10, none⟩ ∧
    checkBoardCreationLimit store now (some uid) = ⟨true, 50, none⟩ := by
  simp [checkFriendRequestLimit, checkReportLimit, checkBoardCreationLimit,
    checkLimit, countDocumentsSince, RATE_LIMITS, hFail]

/-- Witness for the amended C9: a failing store that would otherwise be
over every limit still yields the fail-open allowed result. -/
theorem rateLimit_failOpen_witness :
    checkReportLimit ⟨[], List.replicate 50 ⟨"u1", 0⟩, [], true⟩ 0
      (some "u1") = ⟨true, 10, none⟩ :=
  (rateLimit_failOpen ⟨[], List.replicate 50 ⟨"u1", 0⟩, [], true⟩ 0 "u1"
    rfl).2.1

/-- C7: `createFriendRequest` fails on a self-request; fails "already
friends" when the document of the pair is `active` and "already pending" when
it is `pending` (leaving the store unchanged); otherwise it creates
`{id, users: [sortedA, sortedB], status: pending, requestedBy: fromUid,
createdAt: now}` at the deterministic id and reports success. -/
theorem createFriendRequest_spec (fromUid toUid : String) (db : FriendDB)
    (now : Int) :
    (fromUid = toUid →
      createFriendRequest fromUid toUid db now
        = (⟨false, none, some "You can\x27t send a friend request to yourself"⟩, db)) ∧
    (fromUid ≠ toUid → ∀ ex, db (generateFriendshipId fromUid toUid) = some ex →
      (ex.status = .active →
        createFriendRequest fromUid toUid db now
          = (⟨false, none, some "You are already friends with this user"⟩, db)) ∧
      (ex.status = .pending →
        createFriendRequest fromUid toUid db now
          = (⟨false, none, some "A friend request is already pending"⟩, db))) ∧
    (fromUid ≠ toUid → db (generateFriendshipId fromUid toUid) = none →
      (createFriendRequest fromUid toUid db now).1
          = ⟨true, some (generateFriendshipId fromUid toUid), none⟩ ∧
      (createFriendRequest fromUid toUid db now).2 (generateFriendshipId fromUid toUid)
          = some ⟨generateFriendshipId fromUid toUid,
              [(sortUserIds fromUid toUid).1, (sortUserIds fromUid toUid).2],
              .pending, fromUid, now, none⟩) := by
  refine ⟨fun hself => ?_, fun hne ex hex => ?_, fun hne hnone => ?_⟩
  · simp [createFriendRequest, hself]
  · refine ⟨fun hst => ?_, fun hst => ?_⟩ <;>
      simp [createFriendRequest, hne, hex, hst]
  · simp [createFriendRequest, hne, hnone, setDoc]

/-- Witness for C7: on an empty store `createFriendRequest "u1" "u2"`
succeeds and stores the pending document at `"u1_u2"`; a second request
then fails "already pending"; and a self-request fails. -/
theorem createFriendRequest_spec_witness :
    (createFriendRequest "u1" "u2" emptyDB 0).1
        = ⟨true, some "u1_u2", none⟩ ∧
    createFriendRequest "u1" "u2" (createFriendRequest "u1" "u2" emptyDB 0).2 1
        = (⟨false, none, some "A friend request is already pending"⟩,
            (createFriendRequest "u1" "u2" emptyDB 0).2) ∧
    (createFriendRequest "u1" "u1" emptyDB 0).1.error
        = some "You can\x27t send a friend request to yourself" := by
  refine ⟨?_, ?_, ?_⟩
  · have h := (createFriendRequest_spec "u1" "u2" emptyDB 0).2.2
      (by decide) rfl
    rw [h.1]
    decide
  · have hdoc : (createFriendRequest "u1" "u2" emptyDB 0).2 "u1_u2"
        = some ⟨"u1_u2", ["u1", "u2"], .pending, "u1", 0, none⟩ := by
      have h := (createFriendRequest_spec "u1" "u2" emptyDB 0).2.2
        (by decide) rfl
      have hid : generateFriendshipId "u1" "u2" = "u1_u2" := by decide
      rw [hid] at h
      exact h.2.trans (by decide)
    have h2 := ((createFriendRequest_spec "u1" "u2"
        (createFriendRequest "u1" "u2" emptyDB 0).2 1).2.1
      (by decide) _ (by rw [show generateFriendshipId "u1" "u2" = "u1_u2" by decide]; exact hdoc)).2 rfl
    exact h2
  · have h := (createFriendRequest_spec "u1" "u1" emptyDB 0).1 rfl
    rw [h]

/-- C8: `acceptFriendRequest` fails not-found when no document with the
id exists; fails when the accepting user sent the request (self-accept)
or is not in the `users` pair (store unchanged in every failure case);
otherwise it sets `status = active` and `acceptedAt = now` and reports
success. -/
theorem acceptFriendRequest_spec (fid uid : String) (db : FriendDB)
    (now : Int) :
    (db fid = none →
      acceptFriendRequest fid uid db now
        = (⟨false, none, some "Friend request not found"⟩, db)) ∧
    (∀ f, db fid = some f →
      (f.requestedBy = uid →
        acceptFriendRequest fid uid db now
          = (⟨false, none, some "You can\x27t accept your own friend request"⟩, db)) ∧
      (f.requestedBy ≠ uid → uid ∉ f.users →
        acceptFriendRequest fid uid db now
          = (⟨false, none, some "You are not part of this friend request"⟩, db)) ∧
      (f.requestedBy ≠ uid → uid ∈ f.users →
        (acceptFriendRequest fid uid db now).1 = ⟨true, some fid, none⟩ ∧
        (acceptFriendRequest fid uid db now).2 fid
          = some { f with status := .active, acceptedAt := some now })) := by
  refine ⟨fun hmiss => ?_, fun f hf => ⟨fun hself => ?_, fun hns hmem => ?_,
    fun hns hmem => ?_⟩⟩
  · simp [acceptFriendRequest, hmiss]
  · simp [acceptFriendRequest, hf, hself]
  · simp [acceptFriendRequest, hf, hns, hmem]
  · simp [acceptFriendRequest, hf, hns, hmem, setDoc]

/-- Witness for C8: on the pending document created at `"u1_u2"` by
`"u1"`, a self-accept by `"u1"` fails, an accept by an outsider fails,
an accept by `"u2"` succeeds and activates the document, and a missing id
yields not-found. -/
theorem acceptFriendRequest_spec_witness :
    (acceptFriendRequest "u1_u2" "u1"
        (setDoc emptyDB "u1_u2" ⟨"u1_u2", ["u1", "u2"], .pending, "u1", 0, none⟩) 5).1.error
        = some "You can\x27t accept your own friend request" ∧
    (acceptFriendRequest "u1_u2" "u9"
        (setDoc emptyDB "u1_u2" ⟨"u1_u2", ["u1", "u2"], .pending, "u1", 0, none⟩) 5).1.error
        = some "You are not part of this friend request" ∧
    (acceptFriendRequest "u1_u2" "u2"
        (setDoc emptyDB "u1_u2" ⟨"u1_u2", ["u1", "u2"], .pending, "u1", 0, none⟩) 5).1
        = ⟨true, some "u1_u2", none⟩ ∧
    (acceptFriendRequest "u1_u2" "u2"
        (setDoc emptyDB "u1_u2" ⟨"u1_u2", ["u1", "u2"], .pending, "u1", 0, none⟩) 5).2 "u1_u2"
        = some ⟨"u1_u2", ["u1", "u2"], .active, "u1", 0, some 5⟩ ∧
    (acceptFriendRequest "zz" "u2" emptyDB 5).1.error
        = some "Friend request not found" := by
  have hdoc : (setDoc emptyDB "u1_u2"
      (⟨"u1_u2", ["u1", "u2"], .pending, "u1", 0, none⟩ : Friendship)) "u1_u2"
      = some ⟨"u1_u2", ["u1", "u2"], .pending, "u1", 0, none⟩ := by decide
  have h := acceptFriendRequest_spec "u1_u2" "u1"
    (setDoc emptyDB "u1_u2" ⟨"u1_u2", ["u1", "u2"], .pending, "u1", 0, none⟩) 5
  have h9 := acceptFriendRequest_spec "u1_u2" "u9"
    (setDoc emptyDB "u1_u2" ⟨"u1_u2", ["u1", "u2"], .pending, "u1", 0, none⟩) 5
  have h2 := acceptFriendRequest_spec "u1_u2" "u2"
    (setDoc emptyDB "u1_u2" ⟨"u1_u2", ["u1", "u2"], .pending, "u1", 0, none⟩) 5
  have hz := acceptFriendRequest_spec "zz" "u2" emptyDB 5
  refine ⟨?_, ?_, ?_, ?_, ?_⟩
  · rw [(h.2 _ hdoc).1 rfl]
  · rw [(h9.2 _ hdoc).2.1 (by decide) (by decide)]
  · exact ((h2.2 _ hdoc).2.2 (by decide) (by decide)).1
  · exact ((h2.2 _ hdoc).2.2 (by decide) (by decide)).2
  · rw [hz.1 rfl]

/-- C10: `unfriend` deletes the document at the deterministic pair id
unconditionally and reports success for every store — including stores
holding no document for the pair — whereas `declineFriendRequest` reports
"Friend request not found" on a missing document and fails on an
existing document when the declining user is not in the `users` pair
(deleting and succeeding only for a member). -/
theorem unfriend_decline_spec (uid friendUid fid duid : String)
    (db : FriendDB) :
    ((unfriend uid friendUid db).1
        = ⟨true, some (generateFriendshipId uid friendUid), none⟩ ∧
      (unfriend uid friendUid db).2 (generateFriendshipId uid friendUid)
        = none) ∧
    (db fid = none →
      declineFriendRequest fid duid db
        = (⟨false, none, some "Friend request not found"⟩, db)) ∧
    (∀ f, db fid = some f →
      (duid ∉ f.users →
        declineFriendRequest fid duid db
          = (⟨false, none, some "You are not part of this friend request"⟩, db)) ∧
      (duid ∈ f.users →
        declineFriendRequest fid duid db
          = (⟨true, some fid, none⟩, deleteDoc db fid))) := by
  refine ⟨⟨rfl, by simp [unfriend, deleteDoc]⟩, fun hmiss => ?_,
    fun f hf => ⟨fun hmem => ?_, fun hmem => ?_⟩⟩
  · simp [declineFriendRequest, hmiss]
  · simp [declineFriendRequest, hf, hmem]
  · simp [declineFriendRequest, hf, hmem]

/-- Witness for C10: on the empty store `unfriend` still succeeds while
`declineFriendRequest` reports not-found. -/
theorem unfriend_decline_spec_witness :
    (unfriend "u1" "u2" emptyDB).1.success = true ∧
    (declineFriendRequest "u1_u2" "u1" emptyDB).1.error
      = some "Friend request not found" := by
  have h := unfriend_decline_spec "u1" "u2" "u1_u2" "u1" emptyDB
  exact ⟨by rw [h.1.1], by rw [h.2.1 rfl]⟩

/-- Helper: `filterMap` preserves length when the function returns `some`
on every element. -/
theorem length_filterMap_of_isSome {α β : Type} (f : α → Option β) :
    ∀ l : List α, (∀ a ∈ l, (f a).isSome) →
      (l.filterMap f).length = l.length := by
  intro l h
  induction l with
  | nil => rfl
  | cons a t ih =>
    rcases Option.isSome_iff_exists.mp (h a (List.mem_cons_self a t)) with ⟨b, hb⟩
    simp only [List.filterMap_cons, hb, List.length_cons]
    rw [ih fun x hx => h x (List.mem_cons_of_mem a hx)]

/-- C2: `mergeBoardLists` returns one merged entity per id in the union
of the two id sets — its length is the cardinality of the id union — and
for an id present on both sides the local copy is the entity that appears
in the result. -/
theorem mergeBoardLists_spec (localBoards cloudBoards : List Board) :
    (mergeBoardLists localBoards cloudBoards).length
      = ((localBoards.map (·.id)).toFinset ∪ (cloudBoards.map (·.id)).toFinset).card ∧
    (∀ lb ∈ localBoards, (∃ cb ∈ cloudBoards, cb.id = lb.id) →
      ∃ b ∈ mergeBoardLists localBoards cloudBoards,
        localBoards.find? (fun x => x.id = lb.id) = some b) := by
  constructor
  · have hall : ∀ i ∈ ((localBoards.map (·.id)) ++ (cloudBoards.map (·.id))).dedup,
        (mergeBoards (localBoards.find? (fun b => b.id = i))
          (cloudBoards.find? (fun b => b.id = i))).isSome := by
      intro i hi
      rw [List.mem_dedup] at hi
      rcases List.mem_append.mp hi with hl | hr
      · rcases List.mem_map.mp hl with ⟨a, ha, rfl⟩
        have hs : (localBoards.find? (fun b => decide (b.id = a.id))).isSome :=
          List.find?_isSome.mpr ⟨a, ha, by simp⟩
        rcases Option.isSome_iff_exists.mp hs with ⟨c, hc⟩
        simp only [mergeBoards, hc, Option.isSome_some]
      · rcases List.mem_map.mp hr with ⟨a, ha, rfl⟩
        cases hl2 : localBoards.find? (fun b => decide (b.id = a.id)) with
        | some c => simp only [mergeBoards, hl2, Option.isSome_some]
        | none =>
          have hs : (cloudBoards.find? (fun b => decide (b.id = a.id))).isSome :=
            List.find?_isSome.mpr ⟨a, ha, by simp⟩
          rcases Option.isSome_iff_exists.mp hs with ⟨c, hc⟩
          simp only [mergeBoards, hl2, hc, Option.isSome_some]
    rw [mergeBoardLists, length_filterMap_of_isSome _ _ hall,
      ← List.toFinset_append, List.card_toFinset]
  · rintro lb hlb ⟨cb, hcb, hcbid⟩
    have hs : (localBoards.find? (fun x => decide (x.id = lb.id))).isSome :=
      List.find?_isSome.mpr ⟨lb, hlb, by simp⟩
    rcases Option.isSome_iff_exists.mp hs with ⟨b, hb⟩
    refine ⟨b, ?_, hb⟩
    rw [mergeBoardLists]
    refine List.mem_filterMap.mpr ⟨lb.id, ?_, ?_⟩
    · rw [List.mem_dedup]
      exact List.mem_append.mpr (Or.inl (List.mem_map.mpr ⟨lb, hlb, rfl⟩))
    · simp only [mergeBoards, hb]

/-- Witness for C2: merging two local boards with two cloud boards
sharing one id yields three entities, and the shared id keeps the local
copy. -/
theorem mergeBoardLists_spec_witness :
    (mergeBoardLists
        [⟨"a", "localA", none, 0, 0, none⟩, ⟨"b", "localB", none, 0, 0, none⟩]
        [⟨"a", "cloudA", none, 0, 0, none⟩, ⟨"c", "cloudC", none, 0, 0, none⟩]).length = 3 ∧
    ∃ b ∈ mergeBoardLists
        [⟨"a", "localA", none, 0, 0, none⟩, ⟨"b", "localB", none, 0, 0, none⟩]
        [⟨"a", "cloudA", none, 0, 0, none⟩, ⟨"c", "cloudC", none, 0, 0, none⟩],
      ([⟨"a", "localA", none, 0, 0, none⟩, ⟨"b", "localB", none, 0, 0, none⟩] : List Board).find?
          (fun x => x.id = (⟨"a", "localA", none, 0, 0, none⟩ : Board).id)
        = some b := by
  constructor
  · rw [(mergeBoardLists_spec _ _).1]
    decide
  · exact (mergeBoardLists_spec _ _).2 ⟨"a", "localA", none, 0, 0, none⟩
      (by decide) ⟨⟨"a", "cloudA", none, 0, 0, none⟩, by decide, rfl⟩

/-- C4: a captured snapshot holds value copies — `cardId`, `cardName`,
`rank`, `thumbnailKey` taken from the cards at capture time — and every
later sequence of card edits (renaming, appending, reordering, soft
deletion) leaves the stored snapshot history, including that snapshot and
all earlier ones, exactly as it was at capture. -/
theorem snapshot_entries_immutable (st : AppState) (sid label : String)
    (now : Int) (edits : List CardEdit) :
    (applyCardEdits edits (capture sid label now st)).snapshots
      = st.snapshots ++
        [⟨sid, maxEpisode st.snapshots + 1, label, captureEntries st.board, now⟩] := by
  have hstep : ∀ (e : CardEdit) (t : AppState),
      (applyCardEdit e t).snapshots = t.snapshots := by
    intro e t
    cases e <;> rfl
  have hfold : ∀ (es : List CardEdit) (t : AppState),
      (applyCardEdits es t).snapshots = t.snapshots := by
    intro es
    induction es with
    | nil => intro t; rfl
    | cons e es ih =>
      intro t
      rw [show applyCardEdits (e :: es) t
          = applyCardEdits es (applyCardEdit e t) from rfl, ih, hstep]
  rw [hfold]
  rfl

/-- Helper: `foldr max 0` is invariant under permutation. -/
theorem foldr_max_perm {l l' : List Nat} (h : l.Perm l') :
    l.foldr max 0 = l'.foldr max 0 := by
  induction h with
  | nil => rfl
  | cons a _ ih => simp [List.foldr_cons, ih]
  | swap a b t => simp only [List.foldr_cons]; omega
  | trans _ _ ih1 ih2 => exact ih1.trans ih2

/-- Helper: folding `max` over `[1..n]` yields `max a n`. -/
theorem foldr_max_range' : ∀ (n a : Nat),
    (List.range' 1 n).foldr max a = max a n := by
  intro n
  induction n with
  | zero => intro a; simp
  | succ n ih =>
    intro a
    rw [List.range'_concat, List.foldr_append]
    simp only [List.foldr_cons, List.foldr_nil]
    rw [ih]
    omega

/-- Helper: under the dense-rank property the maximum active rank is the
active card count. -/
theorem maxRank_eq (cs : List Card) (N : Nat)
    (h : (cs.map (·.rank)).Perm (List.range' 1 N)) : maxRank cs = N := by
  unfold maxRank
  rw [foldr_max_perm h, foldr_max_range']
  omega

/-- Helper: a list is a permutation of its element at `i` consed onto the
list with index `i` erased. -/
theorem perm_cons_eraseIdx {α : Type} :
    ∀ (l : List α) (i : Nat) (c : α), l[i]? = some c →
      l.Perm (c :: l.eraseIdx i)
  | [], i, c, h => by simp at h
  | a :: t, 0, c, h => by
    simp only [List.getElem?_cons_zero, Option.some.injEq] at h
    subst h
    simp [List.eraseIdx]
  | a :: t, i + 1, c, h => by
    simp only [List.getElem?_cons_succ] at h
    have ih := perm_cons_eraseIdx t i c h
    have h1 : (a :: t).Perm (a :: c :: t.eraseIdx i) := ih.cons a
    exact h1.trans (List.Perm.swap c a (t.eraseIdx i))

/-- Helper: decrementing every element above `r` in a list that together
with `r` permutes `[1..N]` gives a permutation of `[1..N-1]`. -/
theorem map_dec_perm (r N : Nat) (M : List Nat)
    (h : (r :: M).Perm (List.range' 1 N)) :
    (M.map (fun k => if r < k then k - 1 else k)).Perm
      (List.range' 1 (N - 1)) := by
  have hrmem : r ∈ List.range' 1 N := h.mem_iff.mp (List.mem_cons_self r M)
  rw [List.mem_range'_1] at hrmem
  have hlo : ∀ (n s : Nat), s + n ≤ r + 1 →
      (List.range' s n).map (fun k => if r < k then k - 1 else k)
        = List.range' s n := by
    intro n
    induction n with
    | zero => intro s _; rfl
    | succ n ih =>
      intro s hs
      rw [List.range'_succ, List.map_cons, if_neg (by omega), ih (s + 1) (by omega)]
  have hhi : ∀ (n s : Nat), r < s →
      (List.range' s n).map (fun k => if r < k then k - 1 else k)
        = List.range' (s - 1) n := by
    intro n
    induction n with
    | zero => intro s _; rfl
    | succ n ih =>
      intro s hs
      rw [List.range'_succ, List.map_cons, if_pos hs, ih (s + 1) (by omega)]
      rw [show s + 1 - 1 = s - 1 + 1 by omega, List.range'_succ]
  have h1 : List.range' 1 N
      = List.range' 1 (r - 1) ++ List.range' r (N - r + 1) := by
    have happ := List.range'_append 1 (r - 1) (N - r + 1) 1
    rw [show 1 + 1 * (r - 1) = r by omega, show N - r + 1 + (r - 1) = N by omega]
      at happ
    exact happ.symm
  have h2 : List.range' r (N - r + 1) = r :: List.range' (r + 1) (N - r) :=
    List.range'_succ r (N - r) 1
  have h3 : M.Perm (List.range' 1 (r - 1) ++ List.range' (r + 1) (N - r)) := by
    rw [h1, h2] at h
    exact (h.trans List.perm_middle).cons_inv
  have h4 := h3.map (fun k => if r < k then k - 1 else k)
  rw [List.map_append, hlo (r - 1) 1 (by omega), hhi (N - r) (r + 1) (by omega)]
    at h4
  have h5 : List.range' 1 (r - 1) ++ List.range' (r + 1 - 1) (N - r)
      = List.range' 1 (N - 1) := by
    have happ := List.range'_append 1 (r - 1) (N - r) 1
    rw [show 1 + 1 * (r - 1) = r + 1 - 1 by omega,
      show N - r + (r - 1) = N - 1 by omega] at happ
    exact happ
  rw [h5] at h4
  exact h4

/-- Helper: renumbering assigns exactly the ranks `n, n+1, ...` in list
order. -/
theorem renumberFrom_map_rank : ∀ (n : Nat) (l : List Card),
    (renumberFrom n l).map (·.rank) = List.range' n l.length := by
  intro n l
  induction l generalizing n with
  | nil => rfl
  | cons c t ih =>
    simp only [renumberFrom, List.map_cons, List.length_cons, ih,
      List.range'_succ]

/-- Helper: renumbering preserves the card ids in order. -/
theorem renumberFrom_map_id : ∀ (n : Nat) (l : List Card),
    (renumberFrom n l).map (·.id) = l.map (·.id) := by
  intro n l
  induction l generalizing n with
  | nil => rfl
  | cons c t ih => simp only [renumberFrom, List.map_cons, ih]

/-- Helper: renumbering cards that are all active yields an all-active
list, so filtering by activity is the identity on it. -/
theorem filter_isActive_renumberFrom : ∀ (n : Nat) (l : List Card),
    (∀ x ∈ l, isActive x = true) →
    (renumberFrom n l).filter isActive = renumberFrom n l := by
  intro n l h
  induction l generalizing n with
  | nil => rfl
  | cons c t ih =>
    have hc : isActive c = true := h c (List.mem_cons_self c t)
    have hc2 : isActive { c with rank := n } = true := hc
    simp only [renumberFrom, List.filter_cons, hc2, if_pos]
    rw [ih (n + 1) fun x hx => h x (List.mem_cons_of_mem c hx)]

/-- Helper: the soft-deleted rows never pass the activity filter. -/
theorem filter_isActive_inactiveCards (s : BoardState) :
    (inactiveCards s).filter isActive = [] := by
  rw [List.filter_eq_nil_iff]
  intro x hx
  have := List.of_mem_filter hx
  simp only [Bool.not_eq_true'] at this
  simp [this]

/-- Helper: every sorted active card is active and drawn from the board
rows. -/
theorem mem_activeCards {s : BoardState} {x : Card}
    (hx : x ∈ activeCards s) : x ∈ s.cards ∧ isActive x = true :=
  ⟨List.mem_of_mem_filter hx, List.of_mem_filter hx⟩

/-- Helper: the board rows are a permutation of the inactive rows
followed by the active rows. -/
theorem perm_inactive_active (s : BoardState) :
    s.cards.Perm (inactiveCards s ++ activeCards s) := by
  have h := List.filter_append_perm isActive s.cards
  exact (List.perm_append_comm.trans h).symm

/-- Helper: `appendCard` preserves board well-formedness. -/
theorem boardInv_appendCard (nm : String) (th : Option String)
    (s : BoardState) (h : boardInv s) : boardInv (appendCard nm th s) := by
  obtain ⟨hdense, hnodup, hbound⟩ := h
  have hactive : activeCards (appendCard nm th s)
      = activeCards s ++ [⟨s.nextId, nm, th, maxRank (activeCards s) + 1, none⟩] := by
    simp only [activeCards, appendCard, List.filter_append]
    rfl
  have hmax : maxRank (activeCards s) = (activeCards s).length :=
    maxRank_eq _ _ hdense
  refine ⟨?_, ?_, ?_⟩
  · unfold rankDense
    rw [hactive, List.map_append, List.length_append]
    simp only [List.map_cons, List.map_nil, List.length_cons, List.length_nil]
    have hconcat : List.range' 1 ((activeCards s).length + 1)
        = List.range' 1 (activeCards s).length ++ [(activeCards s).length + 1] := by
      rw [List.range'_concat]
      simp [Nat.add_comm]
    rw [hmax, show (activeCards s).length + (0 + 1) = (activeCards s).length + 1
      by omega, hconcat]
    exact hdense.append (List.Perm.refl _)
  · simp only [appendCard, List.map_append, List.map_cons, List.map_nil]
    rw [List.nodup_append]
    refine ⟨hnodup, List.nodup_singleton _, ?_⟩
    intro a ha hb
    simp only [List.mem_singleton] at hb
    subst hb
    rcases List.mem_map.mp ha with ⟨c, hc, hcd⟩
    have := hbound c hc
    omega
  · intro c hc
    simp only [appendCard, List.mem_append, List.mem_singleton] at hc
    rcases hc with hc | hc
    · have := hbound c hc
      simp only [appendCard]
      omega
    · subst hc
      simp [appendCard]

/-- Helper: renumbering preserves length. -/
theorem renumberFrom_length : ∀ (n : Nat) (l : List Card),
    (renumberFrom n l).length = l.length := by
  intro n l
  induction l generalizing n with
  | nil => rfl
  | cons c t ih => simp only [renumberFrom, List.length_cons, ih]

/-- Helper: `reorderCards` preserves board well-formedness. -/
theorem boardInv_reorderCards (cid i j : Nat) (s : BoardState)
    (h : boardInv s) : boardInv (reorderCards cid i j s) := by
  obtain ⟨hdense, hnodup, hbound⟩ := h
  simp only [reorderCards]
  cases hget : (sortByRank (activeCards s))[i]? with
  | none => exact ⟨hdense, hnodup, hbound⟩
  | some c =>
    dsimp only
    by_cases hcond : c.id = cid ∧ j < (sortByRank (activeCards s)).length
    · rw [if_pos hcond]
      have hi : i < (sortByRank (activeCards s)).length := by
        by_contra hcon
        rw [List.getElem?_eq_none (Nat.le_of_not_lt hcon)] at hget
        cases hget
      have hj : j ≤ ((sortByRank (activeCards s)).eraseIdx i).length := by
        rw [List.length_eraseIdx, if_pos hi]
        omega
      have hsort : (sortByRank (activeCards s)).Perm (activeCards s) :=
        List.perm_insertionSort _ _
      have hperm_new :
          (((sortByRank (activeCards s)).eraseIdx i).insertIdx j c).Perm
            (sortByRank (activeCards s)) :=
        (List.perm_insertIdx c _ hj).trans
          (perm_cons_eraseIdx (sortByRank (activeCards s)) i c hget).symm
      have hall_active :
          ∀ x ∈ ((sortByRank (activeCards s)).eraseIdx i).insertIdx j c,
            isActive x = true := by
        intro x hx
        exact (mem_activeCards
          (hsort.mem_iff.mp (hperm_new.mem_iff.mp hx))).2
      have hactive' :
          activeCards ⟨s.nextId, inactiveCards s ++
            renumberFrom 1 (((sortByRank (activeCards s)).eraseIdx i).insertIdx j c)⟩
          = renumberFrom 1 (((sortByRank (activeCards s)).eraseIdx i).insertIdx j c) := by
        show (inactiveCards s ++
            renumberFrom 1 (((sortByRank (activeCards s)).eraseIdx i).insertIdx j c)).filter isActive
          = renumberFrom 1 (((sortByRank (activeCards s)).eraseIdx i).insertIdx j c)
        rw [List.filter_append, filter_isActive_inactiveCards,
          filter_isActive_renumberFrom _ _ hall_active]
        rfl
      have hids :
          (inactiveCards s ++
            renumberFrom 1 (((sortByRank (activeCards s)).eraseIdx i).insertIdx j c)).map (·.id)
          |>.Perm (s.cards.map (·.id)) := by
        rw [List.map_append, renumberFrom_map_id]
        have h1 := ((hperm_new.trans hsort).map (·.id)).append_left
          ((inactiveCards s).map (·.id))
        have h2 := (perm_inactive_active s).map (·.id)
        rw [List.map_append] at h2
        exact h1.trans h2.symm
      refine ⟨?_, ?_, ?_⟩
      · unfold rankDense
        rw [hactive', renumberFrom_map_rank, renumberFrom_length]
      · exact hids.nodup_iff.mpr hnodup
      · intro x hx
        have : x.id ∈ (inactiveCards s ++
            renumberFrom 1 (((sortByRank (activeCards s)).eraseIdx i).insertIdx j c)).map (·.id) :=
          List.mem_map.mpr ⟨x, hx, rfl⟩
        have hxin := hids.mem_iff.mp this
        rcases List.mem_map.mp hxin with ⟨y, hy, hyid⟩
        have := hbound y hy
        simp only
        omega
    · rw [if_neg hcond]
      exact ⟨hdense, hnodup, hbound⟩

/-- Helper: setting the soft-delete marker makes a row inactive. -/
theorem isActive_setDeleted (a : Card) (now : Int) :
    isActive { a with deletedAt := some now } = false := rfl

/-- Helper: changing a rank leaves activity unchanged. -/
theorem isActive_setRank (a : Card) (k : Nat) :
    isActive { a with rank := k } = isActive a := rfl

/-- Helper: the activity filter of the rewritten rows after a soft delete
keeps exactly the previously active rows other than the deleted one, with
ranks above the pivot decremented. -/
theorem filter_map_softDelete (cid : Nat) (now : Int) (r : Nat) :
    ∀ cs : List Card,
      ((cs.map (fun x =>
          if x.id = cid then { x with deletedAt := some now }
          else if isActive x ∧ r < x.rank then { x with rank := x.rank - 1 }
          else x)).filter isActive)
        = ((cs.filter isActive).filter (fun x => x.id ≠ cid)).map
            (fun x => if r < x.rank then { x with rank := x.rank - 1 } else x) := by
  intro cs
  induction cs with
  | nil => rfl
  | cons a t ih =>
    simp only [List.map_cons, List.filter_cons]
    by_cases h1 : a.id = cid
    · rw [if_pos h1, isActive_setDeleted,
        if_neg (by simp : ¬(false = true))]
      by_cases h2 : isActive a = true
      · rw [if_pos h2, List.filter_cons,
          if_neg (by simp [h1] : ¬(decide (a.id ≠ cid) = true))]
        exact ih
      · rw [if_neg h2]
        exact ih
    · rw [if_neg h1]
      by_cases h2 : isActive a = true
      · by_cases h3 : r < a.rank
        · rw [if_pos (⟨h2, h3⟩ : isActive a = true ∧ r < a.rank),
            isActive_setRank, if_pos h2, if_pos h2, List.filter_cons,
            if_pos (by simp [h1] : decide (a.id ≠ cid) = true),
            List.map_cons, if_pos h3, ih]
        · rw [if_neg (show ¬(isActive a = true ∧ r < a.rank) from fun hc => h3 hc.2),
            if_pos h2, if_pos h2,
            List.filter_cons,
            if_pos (by simp [h1] : decide (a.id ≠ cid) = true),
            List.map_cons, if_neg h3, ih]
      · rw [if_neg (show ¬(isActive a = true ∧ r < a.rank) from fun hc => h2 hc.1),
          if_neg h2, if_neg h2]
        exact ih

/-- Helper: the soft-delete rewrite never changes a row id. -/
theorem map_id_softDelete (cid : Nat) (now : Int) (r : Nat) (cs : List Card) :
    ((cs.map (fun x =>
        if x.id = cid then { x with deletedAt := some now }
        else if isActive x ∧ r < x.rank then { x with rank := x.rank - 1 }
        else x)).map (·.id))
      = cs.map (·.id) := by
  rw [List.map_map]
  apply List.map_congr_left
  intro x _
  by_cases h1 : x.id = cid
  · simp [h1]
  · by_cases h2 : isActive x ∧ r < x.rank <;> simp [h1, h2]

/-- Helper: taking ranks commutes with the decrement-above-`r` rewrite. -/
theorem map_rank_adj (r : Nat) (l : List Card) :
    ((l.map (fun x => if r < x.rank then { x with rank := x.rank - 1 } else x)).map (·.rank))
      = (l.map (·.rank)).map (fun k => if r < k then k - 1 else k) := by
  rw [List.map_map, List.map_map]
  apply List.map_congr_left
  intro x _
  by_cases h : r < x.rank <;> simp [h]

/-- Helper: when row ids are unique, a list permutes to its first match
for an id consed onto the rows with that id filtered away. -/
theorem perm_cons_filter_find (cid : Nat) :
    ∀ (l : List Card) (c : Card), (l.map (·.id)).Nodup →
      l.find? (fun x => x.id = cid) = some c →
      l.Perm (c :: l.filter (fun x => x.id ≠ cid)) := by
  intro l
  induction l with
  | nil => intro c _ hfind; simp at hfind
  | cons a t ih =>
    intro c hnodup hfind
    rw [List.map_cons, List.nodup_cons] at hnodup
    by_cases h : a.id = cid
    · rw [List.find?_cons_of_pos _ (by simp [h])] at hfind
      cases hfind
      rw [List.filter_cons, if_neg (by simp [h])]
      rw [List.filter_eq_self.mpr ?_]
      · intro x hx
        have hmem : x.id ∈ t.map (·.id) := List.mem_map.mpr ⟨x, hx, rfl⟩
        simp only [decide_eq_true_eq]
        intro hxe
        apply hnodup.1
        rw [h, ← hxe]
        exact hmem
    · rw [List.find?_cons_of_neg _ (by simp [h])] at hfind
      have hperm := ih c hnodup.2 hfind
      rw [List.filter_cons, if_pos (by simp [h])]
      exact (hperm.cons a).trans (List.Perm.swap c a _)

/-- Helper: `softDeleteCard` preserves board well-formedness. -/
theorem boardInv_softDeleteCard (cid : Nat) (now : Int) (s : BoardState)
    (h : boardInv s) : boardInv (softDeleteCard cid now s) := by
  obtain ⟨hdense, hnodup, hbound⟩ := h
  simp only [softDeleteCard]
  cases hfind : (activeCards s).find? (fun c => c.id = cid) with
  | none => exact ⟨hdense, hnodup, hbound⟩
  | some c =>
    dsimp only
    have hnodup_act : ((activeCards s).map (·.id)).Nodup :=
      hnodup.sublist ((List.filter_sublist _).map _)
    have hpermA : (activeCards s).Perm
        (c :: (activeCards s).filter (fun x => x.id ≠ cid)) :=
      perm_cons_filter_find cid (activeCards s) c hnodup_act hfind
    have hactive' :
        activeCards ⟨s.nextId, s.cards.map (fun x =>
            if x.id = cid then { x with deletedAt := some now }
            else if isActive x ∧ c.rank < x.rank then { x with rank := x.rank - 1 }
            else x)⟩
        = ((activeCards s).filter (fun x => x.id ≠ cid)).map
            (fun x => if c.rank < x.rank then { x with rank := x.rank - 1 } else x) :=
      filter_map_softDelete cid now c.rank s.cards
    have hperm2 :
        (c.rank :: ((activeCards s).filter (fun x => x.id ≠ cid)).map (·.rank)).Perm
          (List.range' 1 (activeCards s).length) := by
      have := hpermA.map (·.rank)
      rw [List.map_cons] at this
      exact this.symm.trans hdense
    have hdec := map_dec_perm c.rank _ _ hperm2
    have hlen : ((activeCards s).filter (fun x => x.id ≠ cid)).length
        = (activeCards s).length - 1 := by
      have := hpermA.length_eq
      simp only [List.length_cons] at this
      omega
    refine ⟨?_, ?_, ?_⟩
    · unfold rankDense
      rw [hactive', map_rank_adj, List.length_map, hlen]
      exact hdec
    · rw [show ({ s with cards := s.cards.map (fun x =>
            if x.id = cid then { x with deletedAt := some now }
            else if isActive x ∧ c.rank < x.rank then { x with rank := x.rank - 1 }
            else x) } : BoardState).cards = s.cards.map (fun x =>
            if x.id = cid then { x with deletedAt := some now }
            else if isActive x ∧ c.rank < x.rank then { x with rank := x.rank - 1 }
            else x) from rfl, map_id_softDelete cid now c.rank s.cards]
      exact hnodup
    · intro x hx
      rcases List.mem_map.mp hx with ⟨y, hy, hxy⟩
      have hb := hbound y hy
      have hid : x.id = y.id := by
        subst hxy
        by_cases hy1 : y.id = cid
        · simp [hy1]
        · by_cases hy2 : isActive y = true ∧ c.rank < y.rank <;> simp [hy1, hy2]
      simp only
      omega

/-- Helper: every single rank-manager operation preserves board
well-formedness. -/
theorem boardInv_applyRankOp (op : RankOp) (s : BoardState)
    (h : boardInv s) : boardInv (applyRankOp op s) := by
  cases op with
  | append nm thumb => exact boardInv_appendCard nm thumb s h
  | reorder cid i j => exact boardInv_reorderCards cid i j s h
  | softDelete cid now => exact boardInv_softDeleteCard cid now s h

/-- C3: starting from any well-formed board, after every sequence of
append, reorder and soft-delete operations the ranks of the cards with
`deletedAt == null` form exactly the set `{1..N}` where `N` is the count
of such cards — dense, no gaps, no duplicates. -/
theorem applyRankOps_rankDense (ops : List RankOp) (s : BoardState)
    (h : boardInv s) : rankDense (applyRankOps ops s) := by
  suffices hinv : boardInv (applyRankOps ops s) from hinv.1
  induction ops generalizing s with
  | nil => exact h
  | cons op ops ih =>
    rw [show applyRankOps (op :: ops) s
        = applyRankOps ops (applyRankOp op s) from rfl]
    exact ih _ (boardInv_applyRankOp op s h)

/-- Witness for C3: three appends, a reorder of the middle card to the
front and a soft delete of one card leave the empty board with densely
ranked active cards. -/
theorem applyRankOps_rankDense_witness :
    rankDense (applyRankOps
      [.append "A" none, .append "B" none, .append "C" none,
        .reorder 1 1 0, .softDelete 0 5] emptyBoard) :=
  applyRankOps_rankDense
    [.append "A" none, .append "B" none, .append "C" none,
      .reorder 1 1 0, .softDelete 0 5] emptyBoard (by decide)
